import Mathlib

/-
  Shallow embedding of the halui HAL user-interface component (halui.cc).

  The component bridges HAL pins and the EMC task controller over NML
  channels.  The embedding below transcribes, function by function, the
  parts of the source that the verified properties touch:

  - updateStatus            : the non-blocking status poll;
  - emcCommandWaitReceived  : the echo-serial polling loop;
  - emcCommandWaitDone      : receipt wait followed by the DONE/ERROR loop;
  - the serial-number assignment skeleton shared by every sendFoo function;
  - tryNml                  : the bounded connection-retry loop, including
                              the rcs print-destination manipulation;
  - thisQuit and the connection-failure path of main;
  - check_hal_changes       : per-cycle input-pin edge detection;
  - convertLinearUnits      : the linear unit-conversion function.

  C doubles are modelled as exact rationals (the loops only ever add or
  subtract the fixed constants 0.1 and 1.0, and the unit conversions are
  algebraic); C ints as unbounded Int.  The unbounded polling loops are
  modelled with an explicit fuel argument: a result of none means the loop
  is still running after that many iterations.
-/

/-! ### Numeric constants from external headers

The concrete values of these NML type and status codes live in external
headers (rcs.hh, canon.hh); only their distinctness matters to any
property proved here. -/

def RCS_DONE : Int := 1

def RCS_EXEC : Int := 2

def RCS_ERROR : Int := 3

def EMC_STAT_TYPE : Int := 1999

def CANON_UNITS_INCHES : Int := 1

def CANON_UNITS_MM : Int := 2

def CANON_UNITS_CM : Int := 3

/-! ### StatusMirror: updateStatus -/

/-- Model of updateStatus(): fails with -1 when the status channel is
absent or invalid, or when the peeked message type is neither -1-handled
error, "no new data" (0), nor EMC_STAT_TYPE; returns 0 otherwise.
The flag statusValid collapses the three pointer/validity checks of the
source. -/
def updateStatus (statusValid : Bool) (peekType : Int) : Int :=
  if statusValid = false then -1
  else if peekType = -1 then -1
  else if peekType = 0 ∨ peekType = EMC_STAT_TYPE then 0
  else -1

/-! ### CommandProtocol: the wait loops

In the source, EMC_COMMAND_DELAY = 0.1 and the loop accumulator end
starts at 0.0 and grows by 0.1 per iteration; emcTimeout <= 0.0 means
wait forever.  The streams echoes, valid, peek give the value of
emcStatus->echo_serial_number and the poll environment at the i-th poll
of the loop.  The fuel argument bounds the number of iterations examined;
none means the loop has not returned within that bound. -/

def emcCommandWaitReceivedAux (serial : Int) (echoes : Nat → Int)
    (valid : Nat → Bool) (peek : Nat → Int) (timeout : ℚ) :
    Nat → ℚ → Nat → Option Int
  | 0, _, _ => none
  | fuel + 1, endAcc, i =>
    if timeout ≤ 0 ∨ endAcc < timeout then
      -- updateStatus() is called and its return value discarded
      let _updateRet : Int := updateStatus (valid i) (peek i)
      if echoes i = serial then some 0
      else emcCommandWaitReceivedAux serial echoes valid peek timeout fuel
        (endAcc + 1/10) (i + 1)
    else some (-1)

/-- Model of emcCommandWaitReceived(serial_number): poll until the echoed
serial matches, or the timeout elapses. -/
def emcCommandWaitReceived (fuel : Nat) (timeout : ℚ) (serial : Int)
    (echoes : Nat → Int) (valid : Nat → Bool) (peek : Nat → Int) : Option Int :=
  emcCommandWaitReceivedAux serial echoes valid peek timeout fuel 0 0

def emcCommandWaitDoneAux (statuses : Nat → Int)
    (valid : Nat → Bool) (peek : Nat → Int) (timeout : ℚ) :
    Nat → ℚ → Nat → Option Int
  | 0, _, _ => none
  | fuel + 1, endAcc, i =>
    if timeout ≤ 0 ∨ endAcc < timeout then
      let _updateRet : Int := updateStatus (valid i) (peek i)
      if statuses i = RCS_DONE then some 0
      else if statuses i = RCS_ERROR then some (-1)
      else emcCommandWaitDoneAux statuses valid peek timeout fuel
        (endAcc + 1/10) (i + 1)
    else some (-1)

/-- Model of emcCommandWaitDone(serial_number): first wait for receipt
(emcCommandWaitReceived), returning -1 if that fails; then poll
emcStatus->status until RCS_DONE (0) or RCS_ERROR (-1), with a fresh
timeout accumulator. -/
def emcCommandWaitDone (fuel : Nat) (timeout : ℚ) (serial : Int)
    (echoes : Nat → Int) (valid1 : Nat → Bool) (peek1 : Nat → Int)
    (statuses : Nat → Int) (valid2 : Nat → Bool) (peek2 : Nat → Int) :
    Option Int :=
  match emcCommandWaitReceived fuel timeout serial echoes valid1 peek1 with
  | none => none
  | some r =>
    if r ≠ 0 then some (-1)
    else emcCommandWaitDoneAux statuses valid2 peek2 timeout fuel 0 0

/-! ### Serial-number assignment

Every sendFoo function in the source assigns
msg.serial_number = ++emcCommandSerialNumber before writing the message:
the counter is pre-incremented and the incremented value is the serial
carried by the command.  sendCommandSerial returns (new counter value,
serial written into the message). -/

def sendCommandSerial (emcCommandSerialNumber : Int) : Int × Int :=
  let s := emcCommandSerialNumber + 1
  (s, s)

/-- Counter value after k dispatches starting from counter c0. -/
def serialAfter (c0 : Int) : Nat → Int
  | 0 => c0
  | k + 1 => (sendCommandSerial (serialAfter c0 k)).1

/-- Serial number assigned by the (k+1)-th dispatch after startup set the
counter to c0 (main sets it from echo_serial_number). -/
def assignedSerial (c0 : Int) (k : Nat) : Int :=
  (sendCommandSerial (serialAfter c0 k)).2

/-! ### ChannelManager: tryNml -/

/-- Destination of rcs diagnostic printing, set by
set_rcs_print_destination in the source. -/
inductive RcsDest
  | toStdout
  | toNull
deriving DecidableEq, Repr

/-- The guard expression EMC_DEBUG & EMC_DEBUG_NML == 0 of the source,
parsed with C precedence: == binds tighter than &, so it reads
EMC_DEBUG & (EMC_DEBUG_NML == 0), where the C comparison yields the int
1 or 0.  The if takes the branch when the resulting int is nonzero. -/
def nmlGuard (emcDebug emcDebugNml : Int) : Bool :=
  Int.land emcDebug (if emcDebugNml = 0 then 1 else 0) ≠ 0

/-- One retry phase of tryNml: the do/while loop
do { attempt; on success break; esleep(1); end -= 1; } while (end > 0)
with end starting at RETRY_TIME = 10.  attempt i is the outcome of the
(i+1)-th connection attempt (emcTaskNmlGet or emcErrorNmlGet); the
result pairs the flag good with the total number of attempts made. -/
def tryPhaseAux (attempt : Nat → Bool) : Nat → ℚ → Nat → Bool × Nat
  | 0, _, i => (false, i)
  | fuel + 1, endv, i =>
    if attempt i then (true, i + 1)
    else if endv - 1 > 0 then tryPhaseAux attempt fuel (endv - 1) (i + 1)
    else (false, i + 1)

/-- Observable trace of one tryNml() call: return value, number of
attempts in each phase, the print destination in effect while each
attempts of each phase ran (destProbe2 = none when phase 2 never runs), and
the destination on return. -/
structure TryNmlTrace where
  retval : Int
  taskAttempts : Nat
  errAttempts : Nat
  destProbe1 : RcsDest
  destProbe2 : Option RcsDest
  destFinal : RcsDest
deriving DecidableEq, Repr

/-- Model of tryNml(): two bounded retry phases (command+status channels,
then the error channel), each bracketed by guarded
set_rcs_print_destination calls; returns -1 as soon as a phase fails. -/
def tryNmlRun (emcDebug emcDebugNml : Int) (dest0 : RcsDest) (fuel : Nat)
    (taskAttempt errAttempt : Nat → Bool) : TryNmlTrace :=
  let g := nmlGuard emcDebug emcDebugNml
  let d1 := if g then RcsDest.toNull else dest0
  let r1 := tryPhaseAux taskAttempt fuel 10 0
  let d2 := if g then RcsDest.toStdout else d1
  if r1.1 = false then
    { retval := -1, taskAttempts := r1.2, errAttempts := 0,
      destProbe1 := d1, destProbe2 := none, destFinal := d2 }
  else
    let d3 := if g then RcsDest.toNull else d2
    let r2 := tryPhaseAux errAttempt fuel 10 0
    let d4 := if g then RcsDest.toStdout else d3
    { retval := if r2.1 = false then -1 else 0,
      taskAttempts := r1.2, errAttempts := r2.2,
      destProbe1 := d1, destProbe2 := some d3, destFinal := d4 }

/-! ### Shutdown: thisQuit and the connection-failure path of main -/

/-- Validity of the three NML buffers (command, status, error). -/
structure Buffers where
  cmdValid : Bool
  statValid : Bool
  errValid : Bool
deriving DecidableEq, Repr

/-- Model of thisQuit(): when the status buffer exists, block in
emcCommandWaitReceived (return value ignored); then delete all buffers
and call exit(0).  The result is none while the embedded wait is still
running, otherwise some (buffers after teardown, process exit status).
thisQuit never returns to its caller: the exit call ends the process. -/
def thisQuit (bufs : Buffers) (fuel : Nat) (timeout : ℚ) (serial : Int)
    (echoes : Nat → Int) (valid : Nat → Bool) (peek : Nat → Int) :
    Option (Buffers × Int) :=
  let waited : Option Unit :=
    if bufs.statValid then
      match emcCommandWaitReceived fuel timeout serial echoes valid peek with
      | none => none
      | some _ => some ()
    else some ()
  match waited with
  | none => none
  | some _ => some ({ cmdValid := false, statValid := false, errValid := false }, 0)

/-- Connection-failure path of main(): when tryNml() returns nonzero,
main prints an error and calls thisQuit(); since thisQuit ends the
process with exit(0), the following exit(1) statement in main is never
reached, and the process exit status is the one thisQuit supplies. -/
def mainConnectFailureExit (tryNmlRetval : Int) (bufs : Buffers) (fuel : Nat)
    (timeout : ℚ) (serial : Int) (echoes : Nat → Int) (valid : Nat → Bool)
    (peek : Nat → Int) : Option (Option (Buffers × Int)) :=
  if tryNmlRetval ≠ 0 then
    some (thisQuit bufs fuel timeout serial echoes valid peek)
  else none

/-! ### PinSynchronizer: check_hal_changes -/

/-- The HAL input pins read by check_hal_changes. -/
structure HaluiPins where
  machine_on : Bool
  machine_off : Bool
deriving DecidableEq, Repr

/-- The shadow copies in old_halui_data. -/
structure OldHalui where
  machine_on : Bool
  machine_off : Bool
deriving DecidableEq, Repr

/-- Per-pin block of check_hal_changes: if the pin differs from its
shadow then, when the new value is truthy, dispatch the mapped send
function once (its return value sendResult is discarded), and update the
shadow; returns (new shadow, number of dispatches this cycle). -/
def pin_edge_step (pin shadow : Bool) (_sendResult : Int) : Bool × Nat :=
  if pin ≠ shadow then
    (pin, if pin ≠ false then 1 else 0)
  else
    (shadow, 0)

/-- Model of check_hal_changes(): the machine_on block followed by the
machine_off block; returns the new shadows and the dispatch count of
the send function of each pin for this cycle. -/
def check_hal_changes (pins : HaluiPins) (old : OldHalui)
    (onResult offResult : Int) : OldHalui × Nat × Nat :=
  let onStep := pin_edge_step pins.machine_on old.machine_on onResult
  let offStep := pin_edge_step pins.machine_off old.machine_off offResult
  ({ machine_on := onStep.1, machine_off := offStep.1 }, onStep.2, offStep.2)

/-- Iterate the per-pin block of check_hal_changes over a sequence of
cycles; trace lists the pin value read at each cycle, results k is the
(discarded) return value of the dispatch at cycle k.  Returns the final
shadow and the total number of dispatches. -/
def run_input_pin (results : Nat → Int) : Bool → List Bool → Nat → Bool × Nat
  | shadow, [], _ => (shadow, 0)
  | shadow, p :: ps, k =>
    let st := pin_edge_step p shadow (results k)
    let rest := run_input_pin results st.1 ps (k + 1)
    (rest.1, st.2 + rest.2)

/-- Number of rising (0 to 1) edges in a pin-value sequence, relative to
the value observed before the first cycle. -/
def risingEdges : Bool → List Bool → Nat
  | _, [] => 0
  | shadow, p :: ps => (if p ∧ ¬shadow then 1 else 0) + risingEdges p ps

/-- Last pin value observed over a sequence of cycles, defaulting to the
value already held in the shadow when no cycle runs. -/
def lastObserved (shadow : Bool) : List Bool → Bool
  | [] => shadow
  | p :: ps => lastObserved p ps

/-! ### UnitConverter: convertLinearUnits -/

/-- The linearUnitConversion setting of the source. -/
inductive LinearConv
  | custom
  | auto
  | mm
  | inch
  | cm
deriving DecidableEq, Repr

def INCH_PER_MM : ℚ := 1 / (127/5)

def CM_PER_MM : ℚ := 1/10

/-- Model of convertLinearUnits(u): first normalize to millimeters
through the native scale emcStatus->motion.traj.linearUnits, then
branch on the conversion setting; under AUTO, branch on
emcStatus->task.programUnits, and when that value is none of MM, INCHES,
CM the inner switch falls through and the function reaches its final
return u. -/
def convertLinearUnits (conv : LinearConv) (programUnits : Int)
    (linearUnits : ℚ) (u : ℚ) : ℚ :=
  let in_mm := u / linearUnits
  match conv with
  | LinearConv.mm => in_mm
  | LinearConv.inch => in_mm * INCH_PER_MM
  | LinearConv.cm => in_mm * CM_PER_MM
  | LinearConv.auto =>
    if programUnits = CANON_UNITS_MM then in_mm
    else if programUnits = CANON_UNITS_INCHES then in_mm * INCH_PER_MM
    else if programUnits = CANON_UNITS_CM then in_mm * CM_PER_MM
    else u
  | LinearConv.custom => u

/-! ### Supporting lemmas for the pin-edge properties -/

theorem pin_edge_step_fst (pin shadow : Bool) (r : Int) :
    (pin_edge_step pin shadow r).1 = pin := by
  cases pin <;> cases shadow <;> simp [pin_edge_step]

theorem run_input_pin_count (results : Nat → Int) :
    ∀ (tr : List Bool) (shadow : Bool) (k : Nat),
      (run_input_pin results shadow tr k).2 = risingEdges shadow tr := by
  intro tr
  induction tr with
  | nil => intro shadow k; rfl
  | cons p ps ih =>
    intro shadow k
    cases p <;> cases shadow <;>
      simp [run_input_pin, pin_edge_step, risingEdges, ih]

theorem run_input_pin_last (results : Nat → Int) :
    ∀ (tr : List Bool) (shadow : Bool) (k : Nat),
      (run_input_pin results shadow tr k).1 = lastObserved shadow tr := by
  intro tr
  induction tr with
  | nil => intro shadow k; rfl
  | cons p ps ih =>
    intro shadow k
    have hfst : (pin_edge_step p shadow (results k)).1 = p :=
      pin_edge_step_fst p shadow (results k)
    simp [run_input_pin, lastObserved, hfst, ih]

theorem run_input_pin_held_high (results : Nat → Int) :
    ∀ (N k : Nat), run_input_pin results true (List.replicate N true) k = (true, 0) := by
  intro N
  induction N with
  | zero => intro k; rfl
  | succ n ih =>
    intro k
    simp [List.replicate, run_input_pin, pin_edge_step, ih]

/-- C1: a 0 to 1 input-pin transition between two consecutive cycles
dispatches the mapped command exactly once; holding the value at 1 for N
further cycles dispatches nothing more; the sequence 0,1,0,1 dispatches
exactly twice; the shadow equals the last observed pin value after every
cycle regardless of the dispatch result; in general the total dispatch
count over any run equals the number of rising edges, and
check_hal_changes is exactly the per-pin block applied to machine_on and
machine_off. -/
theorem C1_pin_edge_one_shot :
    (∀ r : Int, pin_edge_step true false r = (true, 1)) ∧
    (∀ (results : Nat → Int) (N k : Nat),
       run_input_pin results true (List.replicate N true) k = (true, 0)) ∧
    (∀ (results : Nat → Int) (k : Nat),
       (run_input_pin results false [false, true, false, true] k).2 = 2) ∧
    (∀ (pin shadow : Bool) (r : Int), (pin_edge_step pin shadow r).1 = pin) ∧
    (∀ (results : Nat → Int) (shadow : Bool) (tr : List Bool) (k : Nat),
       (run_input_pin results shadow tr k).2 = risingEdges shadow tr ∧
       (run_input_pin results shadow tr k).1 = lastObserved shadow tr) ∧
    (∀ (pins : HaluiPins) (old : OldHalui) (r1 r2 : Int),
       check_hal_changes pins old r1 r2 =
         ({ machine_on := (pin_edge_step pins.machine_on old.machine_on r1).1,
            machine_off := (pin_edge_step pins.machine_off old.machine_off r2).1 },
          (pin_edge_step pins.machine_on old.machine_on r1).2,
          (pin_edge_step pins.machine_off old.machine_off r2).2)) := by
  refine ⟨fun r => rfl, run_input_pin_held_high, ?_, pin_edge_step_fst, ?_, ?_⟩
  · intro results k
    rw [run_input_pin_count]
    rfl
  · intro results shadow tr k
    exact ⟨run_input_pin_count results tr shadow k,
      run_input_pin_last results tr shadow k⟩
  · intro pins old r1 r2
    rfl

/-! ### Serial-number monotonicity -/

theorem serialAfter_eq (c0 : Int) : ∀ k : Nat, serialAfter c0 k = c0 + k := by
  intro k
  induction k with
  | zero => simp [serialAfter]
  | succ n ih =>
    simp only [serialAfter, sendCommandSerial, ih]
    push_cast
    ring

theorem assignedSerial_eq (c0 : Int) (k : Nat) : assignedSerial c0 k = c0 + k + 1 := by
  simp only [assignedSerial, sendCommandSerial, serialAfter_eq]

/-- C4: within one process lifetime, after main initializes the counter
to c0, the serials assigned by successive dispatches are strictly
increasing, and no serial is ever assigned twice. -/
theorem C4_serials_strictly_increasing (c0 : Int) (i j : Nat) (h : i < j) :
    assignedSerial c0 i < assignedSerial c0 j ∧
    assignedSerial c0 i ≠ assignedSerial c0 j := by
  rw [assignedSerial_eq, assignedSerial_eq]
  omega

theorem C4_serials_witness :
    assignedSerial 5 0 < assignedSerial 5 1 ∧
    assignedSerial 5 0 ≠ assignedSerial 5 1 :=
  C4_serials_strictly_increasing 5 0 1 (by decide)

/-! ### Unit conversion -/

/-- C8: converting a native linear value under AUTO while the reported
program unit system is INCHES gives exactly the result of the explicit
INCH setting, for every native scale and every input. -/
theorem C8_auto_inch_agree (linearUnits u : ℚ) :
    convertLinearUnits LinearConv.auto CANON_UNITS_INCHES linearUnits u =
      convertLinearUnits LinearConv.inch CANON_UNITS_INCHES linearUnits u := by
  norm_num [convertLinearUnits, CANON_UNITS_INCHES, CANON_UNITS_MM]

/-- C10: under AUTO, when the reported program unit system is none of MM,
INCHES, CM, the conversion returns the original native input unchanged,
not the millimeter-normalized value. -/
theorem C10_auto_unknown_units (programUnits : Int) (linearUnits u : ℚ)
    (h1 : programUnits ≠ CANON_UNITS_MM)
    (h2 : programUnits ≠ CANON_UNITS_INCHES)
    (h3 : programUnits ≠ CANON_UNITS_CM) :
    convertLinearUnits LinearConv.auto programUnits linearUnits u = u := by
  simp [convertLinearUnits, h1, h2, h3]

theorem C10_auto_unknown_units_witness :
    convertLinearUnits LinearConv.auto 0 2 1 = 1 :=
  C10_auto_unknown_units 0 2 1 (by decide) (by decide) (by decide)

/-! ### Supporting lemmas for the wait loops -/

theorem waitReceivedAux_step (serial : Int) (echoes : Nat → Int)
    (valid : Nat → Bool) (peek : Nat → Int) (timeout : ℚ) (fuel : Nat)
    (endAcc : ℚ) (i : Nat) :
    emcCommandWaitReceivedAux serial echoes valid peek timeout (fuel + 1) endAcc i =
      if timeout ≤ 0 ∨ endAcc < timeout then
        if echoes i = serial then some 0
        else emcCommandWaitReceivedAux serial echoes valid peek timeout fuel
          (endAcc + 1/10) (i + 1)
      else some (-1) := rfl

theorem waitDoneAux_step (statuses : Nat → Int)
    (valid : Nat → Bool) (peek : Nat → Int) (timeout : ℚ) (fuel : Nat)
    (endAcc : ℚ) (i : Nat) :
    emcCommandWaitDoneAux statuses valid peek timeout (fuel + 1) endAcc i =
      if timeout ≤ 0 ∨ endAcc < timeout then
        if statuses i = RCS_DONE then some 0
        else if statuses i = RCS_ERROR then some (-1)
        else emcCommandWaitDoneAux statuses valid peek timeout fuel
          (endAcc + 1/10) (i + 1)
      else some (-1) := rfl

theorem waitReceivedAux_success (serial : Int) (echoes : Nat → Int)
    (valid : Nat → Bool) (peek : Nat → Int) (timeout : ℚ) :
    ∀ (k fuel i : Nat) (endAcc : ℚ),
      echoes (i + k) = serial →
      (∀ j, j < k → echoes (i + j) ≠ serial) →
      (timeout ≤ 0 ∨ endAcc + (k : ℚ)/10 < timeout) →
      k < fuel →
      emcCommandWaitReceivedAux serial echoes valid peek timeout fuel endAcc i
        = some 0 := by
  intro k
  induction k with
  | zero =>
    intro fuel i endAcc hmatch _ hcond hfuel
    obtain ⟨f, rfl⟩ : ∃ f, fuel = f + 1 := ⟨fuel - 1, by omega⟩
    rw [waitReceivedAux_step]
    have hc : timeout ≤ 0 ∨ endAcc < timeout := by
      rcases hcond with h | h
      · exact Or.inl h
      · right
        simpa using h
    rw [if_pos hc]
    have hm : echoes i = serial := by simpa using hmatch
    rw [if_pos hm]
  | succ n ih =>
    intro fuel i endAcc hmatch hfirst hcond hfuel
    obtain ⟨f, rfl⟩ : ∃ f, fuel = f + 1 := ⟨fuel - 1, by omega⟩
    rw [waitReceivedAux_step]
    have hstep : (0:ℚ) ≤ ((n : ℚ) + 1)/10 := by positivity
    have hc : timeout ≤ 0 ∨ endAcc < timeout := by
      rcases hcond with h | h
      · exact Or.inl h
      · right
        push_cast at h
        linarith
    rw [if_pos hc]
    have hne : echoes i ≠ serial := by
      have h0 := hfirst 0 (Nat.succ_pos n)
      simpa using h0
    rw [if_neg hne]
    have hmatch2 : echoes ((i + 1) + n) = serial := by
      have hidx : (i + 1) + n = i + (n + 1) := by omega
      rw [hidx]
      exact hmatch
    have hfirst2 : ∀ j, j < n → echoes ((i + 1) + j) ≠ serial := by
      intro j hj
      have hidx : (i + 1) + j = i + (j + 1) := by omega
      rw [hidx]
      exact hfirst (j + 1) (by omega)
    have hcond2 : timeout ≤ 0 ∨ (endAcc + 1/10) + (n : ℚ)/10 < timeout := by
      rcases hcond with h | h
      · exact Or.inl h
      · right
        push_cast at h
        linarith
    exact ih f (i + 1) (endAcc + 1/10) hmatch2 hfirst2 hcond2 (by omega)

theorem waitReceivedAux_timeout (serial : Int) (echoes : Nat → Int)
    (valid : Nat → Bool) (peek : Nat → Int) (timeout : ℚ) (ht : 0 < timeout) :
    ∀ (fuel : Nat) (endAcc : ℚ) (i : Nat),
      (∀ j : Nat, endAcc + (j : ℚ)/10 < timeout → echoes (i + j) ≠ serial) →
      1 ≤ fuel →
      10 * (timeout - endAcc) + 1 ≤ (fuel : ℚ) →
      emcCommandWaitReceivedAux serial echoes valid peek timeout fuel endAcc i
        = some (-1) := by
  intro fuel
  induction fuel with
  | zero =>
    intro endAcc i _ h1 _
    omega
  | succ f ih =>
    intro endAcc i hno _ hbound
    rw [waitReceivedAux_step]
    by_cases hc : timeout ≤ 0 ∨ endAcc < timeout
    · rw [if_pos hc]
      have hlt : endAcc < timeout := by
        rcases hc with h | h
        · linarith
        · exact h
      have hne : echoes i ≠ serial := by
        have h0 := hno 0 (by simpa using hlt)
        simpa using h0
      rw [if_neg hne]
      have hf0 : (0 : ℚ) < (f : ℚ) := by
        have hpos : (0:ℚ) < 10 * (timeout - endAcc) := by linarith
        push_cast at hbound
        linarith
      have hf1 : 1 ≤ f := by
        have hn : 0 < f := by exact_mod_cast hf0
        omega
      apply ih (endAcc + 1/10) (i + 1)
      · intro j hj
        have hidx : (i + 1) + j = i + (j + 1) := by omega
        rw [hidx]
        apply hno (j + 1)
        push_cast
        linarith
      · exact hf1
      · push_cast at hbound ⊢
        linarith
    · rw [if_neg hc]

theorem waitReceivedAux_env (serial : Int) (echoes : Nat → Int) (timeout : ℚ) :
    ∀ (fuel : Nat) (endAcc : ℚ) (i : Nat) (v1 : Nat → Bool) (p1 : Nat → Int)
      (v2 : Nat → Bool) (p2 : Nat → Int),
      emcCommandWaitReceivedAux serial echoes v1 p1 timeout fuel endAcc i =
        emcCommandWaitReceivedAux serial echoes v2 p2 timeout fuel endAcc i := by
  intro fuel
  induction fuel with
  | zero => intros; rfl
  | succ f ih =>
    intro endAcc i v1 p1 v2 p2
    rw [waitReceivedAux_step, waitReceivedAux_step]
    by_cases hc : timeout ≤ 0 ∨ endAcc < timeout
    · rw [if_pos hc, if_pos hc]
      by_cases he : echoes i = serial
      · rw [if_pos he, if_pos he]
      · rw [if_neg he, if_neg he]
        exact ih (endAcc + 1/10) (i + 1) v1 p1 v2 p2
    · rw [if_neg hc, if_neg hc]

theorem waitReceivedAux_some (serial : Int) (echoes : Nat → Int)
    (valid : Nat → Bool) (peek : Nat → Int) (timeout : ℚ) :
    ∀ (fuel : Nat) (endAcc : ℚ) (i : Nat) (r : Int),
      emcCommandWaitReceivedAux serial echoes valid peek timeout fuel endAcc i
        = some r →
      (r = 0 ∧ ∃ j, echoes j = serial) ∨ (r = -1 ∧ 0 < timeout) := by
  intro fuel
  induction fuel with
  | zero =>
    intro endAcc i r h
    simp [emcCommandWaitReceivedAux] at h
  | succ f ih =>
    intro endAcc i r h
    rw [waitReceivedAux_step] at h
    by_cases hc : timeout ≤ 0 ∨ endAcc < timeout
    · rw [if_pos hc] at h
      by_cases he : echoes i = serial
      · rw [if_pos he] at h
        left
        refine ⟨?_, ⟨i, he⟩⟩
        simpa using h.symm
      · rw [if_neg he] at h
        exact ih (endAcc + 1/10) (i + 1) r h
    · rw [if_neg hc] at h
      right
      push_neg at hc
      refine ⟨by simpa using h.symm, hc.1⟩

theorem waitReceivedAux_forever (serial : Int) (echoes : Nat → Int)
    (valid : Nat → Bool) (peek : Nat → Int)
    (hno : ∀ j, echoes j ≠ serial) :
    ∀ (fuel : Nat) (endAcc : ℚ) (i : Nat),
      emcCommandWaitReceivedAux serial echoes valid peek 0 fuel endAcc i
        = none := by
  intro fuel
  induction fuel with
  | zero => intros; rfl
  | succ f ih =>
    intro endAcc i
    rw [waitReceivedAux_step, if_pos (Or.inl le_rfl), if_neg (hno i)]
    exact ih (endAcc + 1/10) (i + 1)

theorem waitDoneAux_error (statuses : Nat → Int) (valid : Nat → Bool)
    (peek : Nat → Int) (timeout : ℚ) :
    ∀ (k fuel i : Nat) (endAcc : ℚ),
      statuses (i + k) = RCS_ERROR →
      (∀ j, j < k → statuses (i + j) ≠ RCS_DONE ∧ statuses (i + j) ≠ RCS_ERROR) →
      (timeout ≤ 0 ∨ endAcc + (k : ℚ)/10 < timeout) →
      k < fuel →
      emcCommandWaitDoneAux statuses valid peek timeout fuel endAcc i
        = some (-1) := by
  intro k
  induction k with
  | zero =>
    intro fuel i endAcc hmatch _ hcond hfuel
    obtain ⟨f, rfl⟩ : ∃ f, fuel = f + 1 := ⟨fuel - 1, by omega⟩
    rw [waitDoneAux_step]
    have hc : timeout ≤ 0 ∨ endAcc < timeout := by
      rcases hcond with h | h
      · exact Or.inl h
      · right
        simpa using h
    rw [if_pos hc]
    have hm : statuses i = RCS_ERROR := by simpa using hmatch
    have hnd : statuses i ≠ RCS_DONE := by
      rw [hm]
      decide
    rw [if_neg hnd, if_pos hm]
  | succ n ih =>
    intro fuel i endAcc hmatch hfirst hcond hfuel
    obtain ⟨f, rfl⟩ : ∃ f, fuel = f + 1 := ⟨fuel - 1, by omega⟩
    rw [waitDoneAux_step]
    have hstep : (0:ℚ) ≤ ((n : ℚ) + 1)/10 := by positivity
    have hc : timeout ≤ 0 ∨ endAcc < timeout := by
      rcases hcond with h | h
      · exact Or.inl h
      · right
        push_cast at h
        linarith
    rw [if_pos hc]
    have h0 := hfirst 0 (Nat.succ_pos n)
    have hnd : statuses i ≠ RCS_DONE := by simpa using h0.1
    have hne : statuses i ≠ RCS_ERROR := by simpa using h0.2
    rw [if_neg hnd, if_neg hne]
    have hmatch2 : statuses ((i + 1) + n) = RCS_ERROR := by
      have hidx : (i + 1) + n = i + (n + 1) := by omega
      rw [hidx]
      exact hmatch
    have hfirst2 : ∀ j, j < n →
        statuses ((i + 1) + j) ≠ RCS_DONE ∧ statuses ((i + 1) + j) ≠ RCS_ERROR := by
      intro j hj
      have hidx : (i + 1) + j = i + (j + 1) := by omega
      rw [hidx]
      exact hfirst (j + 1) (by omega)
    have hcond2 : timeout ≤ 0 ∨ (endAcc + 1/10) + (n : ℚ)/10 < timeout := by
      rcases hcond with h | h
      · exact Or.inl h
      · right
        push_cast at h
        linarith
    exact ih f (i + 1) (endAcc + 1/10) hmatch2 hfirst2 hcond2 (by omega)

theorem waitDoneAux_timeout (statuses : Nat → Int) (valid : Nat → Bool)
    (peek : Nat → Int) (timeout : ℚ) (ht : 0 < timeout) :
    ∀ (fuel : Nat) (endAcc : ℚ) (i : Nat),
      (∀ j : Nat, endAcc + (j : ℚ)/10 < timeout →
        statuses (i + j) ≠ RCS_DONE ∧ statuses (i + j) ≠ RCS_ERROR) →
      1 ≤ fuel →
      10 * (timeout - endAcc) + 1 ≤ (fuel : ℚ) →
      emcCommandWaitDoneAux statuses valid peek timeout fuel endAcc i
        = some (-1) := by
  intro fuel
  induction fuel with
  | zero =>
    intro endAcc i _ h1 _
    omega
  | succ f ih =>
    intro endAcc i hno _ hbound
    rw [waitDoneAux_step]
    by_cases hc : timeout ≤ 0 ∨ endAcc < timeout
    · rw [if_pos hc]
      have hlt : endAcc < timeout := by
        rcases hc with h | h
        · linarith
        · exact h
      have h0 := hno 0 (by simpa using hlt)
      have hnd : statuses i ≠ RCS_DONE := by simpa using h0.1
      have hne : statuses i ≠ RCS_ERROR := by simpa using h0.2
      rw [if_neg hnd, if_neg hne]
      have hf0 : (0 : ℚ) < (f : ℚ) := by
        have hpos : (0:ℚ) < 10 * (timeout - endAcc) := by linarith
        push_cast at hbound
        linarith
      have hf1 : 1 ≤ f := by
        have hn : 0 < f := by exact_mod_cast hf0
        omega
      apply ih (endAcc + 1/10) (i + 1)
      · intro j hj
        have hidx : (i + 1) + j = i + (j + 1) := by omega
        rw [hidx]
        apply hno (j + 1)
        push_cast
        linarith
      · exact hf1
      · push_cast at hbound ⊢
        linarith
    · rw [if_neg hc]

/-! ### Claim theorems about the wait loops -/

/-- C2: the WaitReceived loop returns success as soon as a poll observes
echo_serial_number equal to the dispatched serial (whatever the polled
environment reported beforehand), and when a positive timeout
elapses with no matching echo it returns the timeout failure -1. -/
theorem C2_wait_received_protocol (timeout : ℚ) (serial : Int)
    (echoes : Nat → Int) (valid : Nat → Bool) (peek : Nat → Int) :
    (∀ k fuel : Nat,
       echoes k = serial →
       (∀ j, j < k → echoes j ≠ serial) →
       (timeout ≤ 0 ∨ (k : ℚ)/10 < timeout) →
       k < fuel →
       emcCommandWaitReceived fuel timeout serial echoes valid peek = some 0) ∧
    (∀ fuel : Nat,
       0 < timeout →
       (∀ j : Nat, (j : ℚ)/10 < timeout → echoes j ≠ serial) →
       10 * timeout + 1 ≤ (fuel : ℚ) →
       emcCommandWaitReceived fuel timeout serial echoes valid peek
         = some (-1)) := by
  constructor
  · intro k fuel hm hf hc hfuel
    show emcCommandWaitReceivedAux serial echoes valid peek timeout fuel 0 0
      = some 0
    apply waitReceivedAux_success serial echoes valid peek timeout k fuel 0 0
    · simpa using hm
    · intro j hj
      simpa using hf j hj
    · simpa using hc
    · exact hfuel
  · intro fuel ht hno hfuel
    show emcCommandWaitReceivedAux serial echoes valid peek timeout fuel 0 0
      = some (-1)
    apply waitReceivedAux_timeout serial echoes valid peek timeout ht fuel 0 0
    · intro j hj
      simpa using hno j (by simpa using hj)
    · have h0 : (0:ℚ) < (fuel:ℚ) := by linarith
      have hn : 0 < fuel := by exact_mod_cast h0
      omega
    · simpa using hfuel

theorem C2_wait_received_witness :
    emcCommandWaitReceived 1 0 7 (fun _ => 7) (fun _ => true) (fun _ => 0)
      = some 0 ∧
    emcCommandWaitReceived 3 (1/5) 7 (fun _ => 0) (fun _ => true) (fun _ => 0)
      = some (-1) := by
  constructor
  · exact (C2_wait_received_protocol 0 7 (fun _ => 7) (fun _ => true)
      (fun _ => 0)).1 0 1 rfl (fun j hj => absurd hj (Nat.not_lt_zero j))
      (Or.inl le_rfl) (by norm_num)
  · exact (C2_wait_received_protocol (1/5) 7 (fun _ => 0) (fun _ => true)
      (fun _ => 0)).2 3 (by norm_num) (fun j _ => by norm_num) (by norm_num)

/-- C9: the value returned by the status poll is discarded during a
blocking wait: the outcome of the wait is the same under any poll environment
(invalid channel, channel error, unexpected type); a wait can end only
with success on a matching echo or with the timeout failure under a
positive timeout; and with the default timeout 0 a wait whose echo never
matches never returns, including through the receipt phase of WaitDone. -/
theorem C9_wait_poll_discarded (timeout : ℚ) (serial : Int)
    (echoes : Nat → Int) :
    (∀ (fuel : Nat) (v1 : Nat → Bool) (p1 : Nat → Int) (v2 : Nat → Bool)
       (p2 : Nat → Int),
       emcCommandWaitReceived fuel timeout serial echoes v1 p1 =
         emcCommandWaitReceived fuel timeout serial echoes v2 p2) ∧
    (∀ (fuel : Nat) (v : Nat → Bool) (p : Nat → Int) (r : Int),
       emcCommandWaitReceived fuel timeout serial echoes v p = some r →
       (r = 0 ∧ ∃ j, echoes j = serial) ∨ (r = -1 ∧ 0 < timeout)) ∧
    (timeout = 0 → (∀ j, echoes j ≠ serial) →
       ∀ (fuel : Nat) (v : Nat → Bool) (p : Nat → Int),
         emcCommandWaitReceived fuel timeout serial echoes v p = none) ∧
    (timeout = 0 → (∀ j, echoes j ≠ serial) →
       ∀ (fuel : Nat) (v1 : Nat → Bool) (p1 : Nat → Int)
         (statuses : Nat → Int) (v2 : Nat → Bool) (p2 : Nat → Int),
         emcCommandWaitDone fuel timeout serial echoes v1 p1 statuses v2 p2
           = none) := by
  refine ⟨?_, ?_, ?_, ?_⟩
  · intro fuel v1 p1 v2 p2
    exact waitReceivedAux_env serial echoes timeout fuel 0 0 v1 p1 v2 p2
  · intro fuel v p r h
    exact waitReceivedAux_some serial echoes v p timeout fuel 0 0 r h
  · intro h0 hno fuel v p
    subst h0
    exact waitReceivedAux_forever serial echoes v p hno fuel 0 0
  · intro h0 hno fuel v1 p1 statuses v2 p2
    subst h0
    have hrec : emcCommandWaitReceived fuel 0 serial echoes v1 p1 = none :=
      waitReceivedAux_forever serial echoes v1 p1 hno fuel 0 0
    simp [emcCommandWaitDone, hrec]

theorem C9_wait_poll_discarded_witness :
    emcCommandWaitReceived 5 0 7 (fun _ => 0) (fun _ => true) (fun _ => 0)
      = none ∧
    emcCommandWaitDone 5 0 7 (fun _ => 0) (fun _ => true) (fun _ => 0)
      (fun _ => 1) (fun _ => true) (fun _ => 0) = none := by
  constructor
  · exact (C9_wait_poll_discarded 0 7 (fun _ => 0)).2.2.1 rfl
      (fun j => by norm_num) 5 (fun _ => true) (fun _ => 0)
  · exact (C9_wait_poll_discarded 0 7 (fun _ => 0)).2.2.2 rfl
      (fun j => by norm_num) 5 (fun _ => true) (fun _ => 0) (fun _ => 1)
      (fun _ => true) (fun _ => 0)

/-- C3 counterexample: the run in which the completion state reports
ERROR right after the echo matched returns exactly the same value -1
that the run returning by timeout produces, so the RemoteError outcome
and the Timeout outcome of emcCommandWaitDone are not distinct result
values and the caller cannot tell them apart. -/
theorem C3_failure_values_coincide :
    emcCommandWaitDone 20 0 7 (fun _ => 7) (fun _ => true) (fun _ => 0)
      (fun _ => RCS_ERROR) (fun _ => true) (fun _ => 0) = some (-1) ∧
    emcCommandWaitDone 20 1 7 (fun _ => 7) (fun _ => true) (fun _ => 0)
      (fun _ => RCS_EXEC) (fun _ => true) (fun _ => 0) = some (-1) := by
  constructor
  · rfl
  · have hrec : emcCommandWaitReceived 20 1 7 (fun _ => 7) (fun _ => true)
        (fun _ => 0) = some 0 := by
      show emcCommandWaitReceivedAux 7 (fun _ => 7) (fun _ => true)
        (fun _ => 0) 1 20 0 0 = some 0
      apply waitReceivedAux_success 7 (fun _ => 7) (fun _ => true)
        (fun _ => 0) 1 0 20 0 0
      · rfl
      · intro j hj
        omega
      · right
        norm_num
      · norm_num
    have hdone : emcCommandWaitDoneAux (fun _ => RCS_EXEC) (fun _ => true)
        (fun _ => 0) 1 20 0 0 = some (-1) := by
      apply waitDoneAux_timeout (fun _ => RCS_EXEC) (fun _ => true)
        (fun _ => 0) 1 (by norm_num) 20 0 0
      · intro j hj
        constructor <;> norm_num [RCS_EXEC, RCS_DONE, RCS_ERROR]
      · norm_num
      · norm_num
    simp [emcCommandWaitDone, hrec, hdone]

/-- C3 amended: after the echo has matched, if the completion state
becomes ERROR before DONE then emcCommandWaitDone returns the failure
value -1; however this is the same value -1 that the timeout failure
produces (second conjunct), so the two failure outcomes are not
distinguishable from the return value. -/
theorem C3_error_before_done_fails (timeout : ℚ) (serial : Int)
    (echoes statuses : Nat → Int) (v1 v2 : Nat → Bool) (p1 p2 : Nat → Int) :
    (∀ k ke fuel : Nat,
       echoes k = serial →
       (∀ j, j < k → echoes j ≠ serial) →
       (timeout ≤ 0 ∨ (k : ℚ)/10 < timeout) →
       statuses ke = RCS_ERROR →
       (∀ j, j < ke → statuses j ≠ RCS_DONE ∧ statuses j ≠ RCS_ERROR) →
       (timeout ≤ 0 ∨ (ke : ℚ)/10 < timeout) →
       k < fuel → ke < fuel →
       emcCommandWaitDone fuel timeout serial echoes v1 p1 statuses v2 p2
         = some (-1)) ∧
    (∀ k fuel : Nat,
       0 < timeout →
       echoes k = serial →
       (∀ j, j < k → echoes j ≠ serial) →
       (k : ℚ)/10 < timeout →
       (∀ j : Nat, (j : ℚ)/10 < timeout →
         statuses j ≠ RCS_DONE ∧ statuses j ≠ RCS_ERROR) →
       k < fuel →
       10 * timeout + 1 ≤ (fuel : ℚ) →
       emcCommandWaitDone fuel timeout serial echoes v1 p1 statuses v2 p2
         = some (-1)) := by
  constructor
  · intro k ke fuel hm hf hck hs hfs hcke hfk hfke
    have hrec : emcCommandWaitReceived fuel timeout serial echoes v1 p1
        = some 0 := by
      show emcCommandWaitReceivedAux serial echoes v1 p1 timeout fuel 0 0
        = some 0
      apply waitReceivedAux_success serial echoes v1 p1 timeout k fuel 0 0
      · simpa using hm
      · intro j hj
        simpa using hf j hj
      · simpa using hck
      · exact hfk
    have hdone : emcCommandWaitDoneAux statuses v2 p2 timeout fuel 0 0
        = some (-1) := by
      apply waitDoneAux_error statuses v2 p2 timeout ke fuel 0 0
      · simpa using hs
      · intro j hj
        simpa using hfs j hj
      · simpa using hcke
      · exact hfke
    simp [emcCommandWaitDone, hrec, hdone]
  · intro k fuel ht hm hf hck hnostat hfk hfuel
    have hrec : emcCommandWaitReceived fuel timeout serial echoes v1 p1
        = some 0 := by
      show emcCommandWaitReceivedAux serial echoes v1 p1 timeout fuel 0 0
        = some 0
      apply waitReceivedAux_success serial echoes v1 p1 timeout k fuel 0 0
      · simpa using hm
      · intro j hj
        simpa using hf j hj
      · right
        simpa using hck
      · exact hfk
    have h1f : 1 ≤ fuel := by omega
    have hdone : emcCommandWaitDoneAux statuses v2 p2 timeout fuel 0 0
        = some (-1) := by
      apply waitDoneAux_timeout statuses v2 p2 timeout ht fuel 0 0
      · intro j hj
        simpa using hnostat j (by simpa using hj)
      · exact h1f
      · simpa using hfuel
    simp [emcCommandWaitDone, hrec, hdone]

theorem C3_error_before_done_witness :
    emcCommandWaitDone 5 0 7 (fun _ => 7) (fun _ => true) (fun _ => 0)
      (fun _ => RCS_ERROR) (fun _ => true) (fun _ => 0) = some (-1) :=
  (C3_error_before_done_fails 0 7 (fun _ => 7) (fun _ => RCS_ERROR)
    (fun _ => true) (fun _ => true) (fun _ => 0) (fun _ => 0)).1
    0 0 5 rfl (fun j hj => absurd hj (Nat.not_lt_zero j)) (Or.inl le_rfl)
    rfl (fun j hj => absurd hj (Nat.not_lt_zero j)) (Or.inl le_rfl)
    (by norm_num) (by norm_num)

/-! ### Supporting lemmas for the retry loop -/

theorem tryPhaseAux_step (attempt : Nat → Bool) (fuel : Nat) (endv : ℚ)
    (i : Nat) :
    tryPhaseAux attempt (fuel + 1) endv i =
      if attempt i then (true, i + 1)
      else if endv - 1 > 0 then tryPhaseAux attempt fuel (endv - 1) (i + 1)
      else (false, i + 1) := rfl

theorem tryPhaseAux_all_fail (attempt : Nat → Bool)
    (hfail : ∀ i, attempt i = false) :
    ∀ (n fuel i : Nat), n + 1 ≤ fuel →
      tryPhaseAux attempt fuel ((n : ℚ) + 1) i = (false, i + (n + 1)) := by
  intro n
  induction n with
  | zero =>
    intro fuel i hfuel
    obtain ⟨f, rfl⟩ : ∃ f, fuel = f + 1 := ⟨fuel - 1, by omega⟩
    rw [tryPhaseAux_step, hfail i]
    norm_num
  | succ m ih =>
    intro fuel i hfuel
    obtain ⟨f, rfl⟩ : ∃ f, fuel = f + 1 := ⟨fuel - 1, by omega⟩
    rw [tryPhaseAux_step, hfail i]
    have hgt : ((m + 1 : Nat) : ℚ) + 1 - 1 > 0 := by
      push_cast
      have hm : (0:ℚ) ≤ (m : ℚ) := Nat.cast_nonneg m
      linarith
    rw [if_neg (by simp), if_pos hgt]
    have he : ((m + 1 : Nat) : ℚ) + 1 - 1 = (m : ℚ) + 1 := by
      push_cast
      ring
    rw [he, ih f (i + 1) (by omega)]
    have hi : i + 1 + (m + 1) = i + (m + 1 + 1) := by omega
    rw [hi]

/-- All ten attempts of a phase fail: the phase ends with good = false
after exactly 10 attempts. -/
theorem tryNmlRun_all_fail (emcDebug emcDebugNml : Int) (dest0 : RcsDest)
    (fuel : Nat) (taskAttempt errAttempt : Nat → Bool)
    (hfail : ∀ i, taskAttempt i = false) (hfuel : 10 ≤ fuel) :
    tryNmlRun emcDebug emcDebugNml dest0 fuel taskAttempt errAttempt =
      { retval := -1, taskAttempts := 10, errAttempts := 0,
        destProbe1 := if nmlGuard emcDebug emcDebugNml then RcsDest.toNull
          else dest0,
        destProbe2 := none,
        destFinal := if nmlGuard emcDebug emcDebugNml then RcsDest.toStdout
          else if nmlGuard emcDebug emcDebugNml then RcsDest.toNull
            else dest0 } := by
  have hphase : tryPhaseAux taskAttempt fuel 10 0 = (false, 10) := by
    have h := tryPhaseAux_all_fail taskAttempt hfail 9 fuel 0 (by omega)
    norm_num at h
    exact h
  simp [tryNmlRun, hphase]

/-- C5: when every connection attempt of the first phase fails, tryNml
makes exactly 10 attempts (the 10 s budget at the 1 s interval of the
do/while loop), returns the failure value -1, and makes no further
attempt in either phase beyond that budget. -/
theorem C5_retry_budget (emcDebug emcDebugNml : Int) (dest0 : RcsDest)
    (fuel : Nat) (taskAttempt errAttempt : Nat → Bool)
    (hfail : ∀ i, taskAttempt i = false) (hfuel : 10 ≤ fuel) :
    (tryNmlRun emcDebug emcDebugNml dest0 fuel taskAttempt errAttempt).retval
      = -1 ∧
    (tryNmlRun emcDebug emcDebugNml dest0 fuel taskAttempt
      errAttempt).taskAttempts = 10 ∧
    (tryNmlRun emcDebug emcDebugNml dest0 fuel taskAttempt
      errAttempt).errAttempts = 0 := by
  rw [tryNmlRun_all_fail emcDebug emcDebugNml dest0 fuel taskAttempt
    errAttempt hfail hfuel]
  exact ⟨rfl, rfl, rfl⟩

theorem C5_retry_budget_witness :
    (tryNmlRun 0 2 RcsDest.toStdout 10 (fun _ => false)
      (fun _ => false)).retval = -1 ∧
    (tryNmlRun 0 2 RcsDest.toStdout 10 (fun _ => false)
      (fun _ => false)).taskAttempts = 10 ∧
    (tryNmlRun 0 2 RcsDest.toStdout 10 (fun _ => false)
      (fun _ => false)).errAttempts = 0 :=
  C5_retry_budget 0 2 RcsDest.toStdout 10 (fun _ => false) (fun _ => false)
    (fun _ => rfl) (by norm_num)

/-- C7: with the default debug setting EMC_DEBUG = 0 (and in fact
whatever the value of the external flag EMC_DEBUG_NML), the guard of
the source EMC_DEBUG & EMC_DEBUG_NML == 0 parses as
EMC_DEBUG & (EMC_DEBUG_NML == 0) and evaluates to 0, so diagnostic
output is never redirected to null during probing: the destination seen
by every probe attempt, and the destination on return, equal the initial
destination on every path, contrary to the specified suppression. -/
theorem C7_probe_suppression_never_happens (emcDebugNml : Int)
    (dest0 : RcsDest) (fuel : Nat) (ta ea : Nat → Bool) :
    nmlGuard 0 emcDebugNml = false ∧
    (tryNmlRun 0 emcDebugNml dest0 fuel ta ea).destProbe1 = dest0 ∧
    (tryNmlRun 0 emcDebugNml dest0 fuel ta ea).destFinal = dest0 ∧
    ((tryNmlRun 0 emcDebugNml dest0 fuel ta ea).destProbe2 = none ∨
     (tryNmlRun 0 emcDebugNml dest0 fuel ta ea).destProbe2 = some dest0) := by
  have hg : nmlGuard 0 emcDebugNml = false := by
    unfold nmlGuard
    by_cases h : emcDebugNml = 0
    · rw [if_pos h]
      decide
    · rw [if_neg h]
      decide
  refine ⟨hg, ?_, ?_, ?_⟩
  · cases htp : (tryPhaseAux ta fuel 10 0).1 <;> simp [tryNmlRun, hg, htp]
  · cases htp : (tryPhaseAux ta fuel 10 0).1 <;> simp [tryNmlRun, hg, htp]
  · cases htp : (tryPhaseAux ta fuel 10 0).1 <;> simp [tryNmlRun, hg, htp]

/-- C6: when every connection attempt fails, tryNml returns -1 and main
takes its failure path, which calls thisQuit: all channels are torn
down, but thisQuit ends the process with exit(0), so the process exit
status is 0; the exit(1) statement that follows the thisQuit() call in
main is unreachable, and the exit status is not non-zero as specified. -/
theorem C6_connect_failure_exits_zero (emcDebug emcDebugNml : Int)
    (dest0 : RcsDest) (fuel : Nat) (taskAttempt errAttempt : Nat → Bool)
    (hfail : ∀ i, taskAttempt i = false) (hfuel : 10 ≤ fuel) :
    (tryNmlRun emcDebug emcDebugNml dest0 fuel taskAttempt errAttempt).retval
      = -1 ∧
    (∀ (fuel2 : Nat) (timeout : ℚ) (serial : Int) (echoes : Nat → Int)
       (v : Nat → Bool) (p : Nat → Int),
       mainConnectFailureExit (-1)
         { cmdValid := false, statValid := false, errValid := false }
         fuel2 timeout serial echoes v p =
         some (some
           ({ cmdValid := false, statValid := false, errValid := false },
            0))) := by
  constructor
  · rw [tryNmlRun_all_fail emcDebug emcDebugNml dest0 fuel taskAttempt
      errAttempt hfail hfuel]
  · intro fuel2 timeout serial echoes v p
    simp [mainConnectFailureExit, thisQuit]

theorem C6_connect_failure_witness :
    (tryNmlRun 0 2 RcsDest.toStdout 10 (fun _ => false)
      (fun _ => false)).retval = -1 ∧
    mainConnectFailureExit (-1)
      { cmdValid := false, statValid := false, errValid := false }
      3 0 0 (fun _ => 0) (fun _ => true) (fun _ => 0) =
      some (some
        ({ cmdValid := false, statValid := false, errValid := false }, 0)) :=
  ⟨(C6_connect_failure_exits_zero 0 2 RcsDest.toStdout 10 (fun _ => false)
      (fun _ => false) (fun _ => rfl) (by norm_num)).1,
   (C6_connect_failure_exits_zero 0 2 RcsDest.toStdout 10 (fun _ => false)
      (fun _ => false) (fun _ => rfl) (by norm_num)).2
      3 0 0 (fun _ => 0) (fun _ => true) (fun _ => 0)⟩
